import Mathlib

/-!
# SMA crossover signal: a verification development for `main.go`

The program turns a chronological list of candle closing prices into one of
the signals `BUY`, `SELL`, `NEUTRAL` by comparing the simple moving average
over 8 candles, now and one candle earlier, with the one over 55 candles.

## Embedding

* A `float64` is an `F64`: `NaN`, `+Inf`, `-Inf`, or a finite number given by
  its exact rational value.  The two zeros are one value: they compare equal,
  and the only divisor the program uses is `float64(n)`, which is never `-0`.
* Arithmetic on `F64` is IEEE 754 binary64: the exact result is rounded to
  the nearest `float64`, ties to even, with gradual underflow and overflow
  to an infinity (`F64.round`).  `sma` adds and divides with it, so rounding
  and overflow of the running sum are part of the model.
* A theorem quantified over every `F64` holds in particular for the values a
  `float64` can hold, those with `F64.isFloat64`; every concrete input below
  consists of such values.
* A run-time panic (slice bounds out of range) is `none`.
* `int` is `Int`.  The theorems of the claims state the value of `sma` only
  at window parameters with `0 ≤ offset`, `0 ≤ n` and `n + offset ≤ len`, or
  at the three fixed windows of `generateSignal`, where every intermediate
  integer lies between `-55` and `len` and 64-bit wrap-around cannot occur.
  The bounds of `smaWellDefined` and `windowInside` are inequalities over the
  unbounded integers.
* The slice expression `pdl[start:end]` of Go is bounded above by the
  capacity of `pdl`; a list has capacity equal to its length.  For
  `0 ≤ offset` the upper bound `end = len - offset` is at most `len`, so
  the two readings agree there.
* An `error` is its message, `nil` is `none`.  `fetchPriceData` and the
  handler `signal` take what they get from outside (clock, `http.Get`, JSON
  decoder) as an `Env`, and record the URLs they request and the calls they
  make, so that "is not called" and "before any request" can be stated.
* An implementation of the interface `SMA` is a pure function in `SMA` and a
  state-passing one in `StatefulSMA`; `generateSignalFrom` is `generateSignal`
  on the latter, and the two agree on a `PriceDataList`
  (`generateSignalFrom_list`).
-/

namespace Cryptohopper

/-! ## Constants (`main.go` lines 13-18) -/

def SignalSell : String := "SELL"

def SignalBuy : String := "BUY"

def SignalNeutral : String := "NEUTRAL"

def MinPriceDataLength : Nat := 55

/-! ## `float64` values and their comparisons -/

/-- A `float64` value as far as comparison is concerned: not-a-number, the
two infinities, or a finite number. -/
inductive F64 where
  | nan : F64
  | negInf : F64
  | fin (q : ℚ) : F64
  | posInf : F64
  deriving DecidableEq

/-- Go `a < b` on `float64`: false as soon as one side is `NaN`. -/
def F64.lt : F64 → F64 → Bool
  | .nan, _ => false
  | _, .nan => false
  | .negInf, .negInf => false
  | .negInf, _ => true
  | .fin _, .negInf => false
  | .fin a, .fin b => decide (a < b)
  | .fin _, .posInf => true
  | .posInf, _ => false

/-- Go `a <= b` on `float64`: false as soon as one side is `NaN`. -/
def F64.le : F64 → F64 → Bool
  | .nan, _ => false
  | _, .nan => false
  | .negInf, _ => true
  | .fin _, .negInf => false
  | .fin a, .fin b => decide (a ≤ b)
  | .fin _, .posInf => true
  | .posInf, .posInf => true
  | .posInf, _ => false

/-- Go `a > b` on `float64`. -/
def F64.gt (a b : F64) : Bool := F64.lt b a

/-- Go `a >= b` on `float64`. -/
def F64.ge (a b : F64) : Bool := F64.le b a

/-- Go `a == b` on `float64`: `NaN` is equal to nothing, itself included. -/
def F64.eq : F64 → F64 → Bool
  | .nan, _ => false
  | _, .nan => false
  | .negInf, .negInf => true
  | .fin a, .fin b => decide (a = b)
  | .posInf, .posInf => true
  | _, _ => false

/-- Go unary `-a` on `float64`. -/
def F64.neg : F64 → F64
  | .nan => .nan
  | .negInf => .posInf
  | .fin q => .fin (-q)
  | .posInf => .negInf

/-- The rational value of a finite `float64` (zero for the others). -/
def F64.toRat : F64 → ℚ
  | .fin q => q
  | _ => 0

/-- The power `2 ^ u` for an integer `u`. -/
def twoPow (u : Int) : ℚ :=
  if 0 ≤ u then ((2 ^ u.toNat : Nat) : ℚ) else 1 / ((2 ^ (-u).toNat : Nat) : ℚ)

/-- The binary logarithm of `n`, rounded down, by halving at most `fuel` times. -/
def log2Fuel : Nat → Nat → Nat
  | 0, _ => 0
  | fuel + 1, n => if 2 ≤ n then log2Fuel fuel (n / 2) + 1 else 0

/-- The binary logarithm of `n`, rounded down (`0` for `n = 0`). -/
def natLog2 (n : Nat) : Nat := log2Fuel n n

/-- The binary exponent of `q > 0`: the `e` with `2 ^ e ≤ q < 2 ^ (e + 1)`. -/
def binExp (q : ℚ) : Int :=
  let e0 : Int := (natLog2 q.num.toNat : Int) - (natLog2 q.den : Int)
  if twoPow e0 ≤ q then e0 else e0 - 1

/-- Rounding of `q > 0` to binary64: 53 significant bits, exponent at least
`-1022` (below it the spacing stays `2 ^ (-1074)`), nearest value with ties to
the even significand, and `+Inf` from `2 ^ 1024` on. -/
def roundPos (q : ℚ) : F64 :=
  let e := max (binExp q) (-1022)
  let u := e - 52
  let scaled := q / twoPow u
  let f : Int := ⌊scaled⌋
  let r := scaled - (f : ℚ)
  let m : Int :=
    if r < 1 / 2 then f else if 1 / 2 < r then f + 1 else if f % 2 = 0 then f else f + 1
  let v := (m : ℚ) * twoPow u
  if twoPow 1024 ≤ v then F64.posInf else F64.fin v

/-- Rounding of an exact result to the nearest `float64`. -/
def F64.round (q : ℚ) : F64 :=
  if q = 0 then F64.fin 0 else if 0 < q then roundPos q else F64.neg (roundPos (-q))

/-- Whether a value is one a `float64` can hold. -/
def F64.isFloat64 : F64 → Bool
  | .fin q => decide (F64.round q = F64.fin q)
  | _ => true

/-- Go `a + b` on `float64`. -/
def F64.add : F64 → F64 → F64
  | .nan, _ => .nan
  | _, .nan => .nan
  | .posInf, .negInf => .nan
  | .negInf, .posInf => .nan
  | .posInf, _ => .posInf
  | _, .posInf => .posInf
  | .negInf, _ => .negInf
  | _, .negInf => .negInf
  | .fin a, .fin b => F64.round (a + b)

/-- Go `a * b` on `float64`. -/
def F64.mul : F64 → F64 → F64
  | .nan, _ => .nan
  | _, .nan => .nan
  | .fin a, .fin b => F64.round (a * b)
  | .fin a, .posInf => if a = 0 then .nan else if 0 < a then .posInf else .negInf
  | .fin a, .negInf => if a = 0 then .nan else if 0 < a then .negInf else .posInf
  | .posInf, .fin b => if b = 0 then .nan else if 0 < b then .posInf else .negInf
  | .negInf, .fin b => if b = 0 then .nan else if 0 < b then .negInf else .posInf
  | .posInf, .posInf => .posInf
  | .posInf, .negInf => .negInf
  | .negInf, .posInf => .negInf
  | .negInf, .negInf => .posInf

/-- Go `a / b` on `float64`, for a divisor whose zero is `+0`: a zero divisor
does not panic, it yields `NaN` (for `0/0`) or an infinity. -/
def F64.div : F64 → F64 → F64
  | .nan, _ => .nan
  | _, .nan => .nan
  | .fin a, .fin b =>
    if b = 0 then
      if a = 0 then .nan else if 0 < a then .posInf else .negInf
    else F64.round (a / b)
  | .fin _, .posInf => .fin 0
  | .fin _, .negInf => .fin 0
  | .posInf, .fin b => if 0 ≤ b then .posInf else .negInf
  | .negInf, .fin b => if 0 ≤ b then .negInf else .posInf
  | .posInf, .posInf => .nan
  | .posInf, .negInf => .nan
  | .negInf, .posInf => .nan
  | .negInf, .negInf => .nan

/-- The conversion `float64(n)` of an `int`. -/
def F64.ofInt (n : Int) : F64 := F64.round (n : ℚ)

/-! ## Price data (`main.go` lines 27-54) -/

/-- One candle; only the closing price is kept. -/
structure PriceData where
  Close : F64
  deriving DecidableEq

/-- A series of candles, oldest first. -/
abbrev PriceDataList := List PriceData

/-- `func (pdl PriceDataList) isValid() bool`. -/
def PriceDataList.isValid (pdl : PriceDataList) : Bool :=
  decide (pdl.length ≥ MinPriceDataLength)

/-- The slice expression `pdl[start:end]`: it panics (`none`) unless
`0 ≤ start ≤ end ≤ len(pdl)`. -/
def PriceDataList.slice (pdl : PriceDataList) (start end_ : Int) : Option PriceDataList :=
  if 0 ≤ start ∧ start ≤ end_ ∧ end_ ≤ (pdl.length : Int) then
    some ((pdl.drop start.toNat).take (end_ - start).toNat)
  else none

/-- `func (pdl PriceDataList) sma(n int, offset int) float64`. -/
def PriceDataList.sma (pdl : PriceDataList) (n offset : Int) : Option F64 :=
  let start := (pdl.length : Int) - n - offset
  let end_ := (pdl.length : Int) - offset
  match pdl.slice start end_ with
  | none => none
  | some slice =>
    let sum := slice.foldl (fun sum pd => F64.add sum pd.Close) (F64.fin 0)
    some (F64.div sum (F64.ofInt n))

/-! ## The `SMA` interface and `generateSignal` (`main.go` lines 20-25, 119-140) -/

/-- The interface `SMA`: anything able to produce an SMA(n) ending `offset`
samples before the latest one.  A call that panics is `none`. -/
structure SMA where
  sma : Int → Int → Option F64
  isValid : Bool

/-- A `PriceDataList` satisfies the interface `SMA` with its own methods. -/
def PriceDataList.toSMA (pdl : PriceDataList) : SMA :=
  ⟨pdl.sma, pdl.isValid⟩

/-- `func generateSignal(s SMA) string`. -/
def generateSignal (s : SMA) : Option String :=
  (s.sma 8 0).bind fun currentSma8 =>
  (s.sma 8 1).bind fun prevSma8 =>
  (s.sma 55 0).bind fun currentSma55 =>
    let prevHigherOrSame := F64.ge prevSma8 currentSma55
    let prevLowerOrSame := F64.le prevSma8 currentSma55
    let currentLower := F64.lt currentSma8 currentSma55
    let currentHigher := F64.gt currentSma8 currentSma55
    if currentLower && prevHigherOrSame then some SignalSell
    else if currentHigher && prevLowerOrSame then some SignalBuy
    else some SignalNeutral

/-! ## Specification-side definitions -/

/-- The closing price stored at index `i`, as a rational number (zero past
the end). -/
def closeAt (pdl : PriceDataList) (i : Nat) : ℚ :=
  (pdl.getD i ⟨F64.fin 0⟩).Close.toRat

/-- The closing prices that `sma(n, offset)` adds up, in order. -/
def windowCloses (pdl : PriceDataList) (n offset : Int) : List F64 :=
  ((pdl.drop ((pdl.length : Int) - n - offset).toNat).take n.toNat).map PriceData.Close

/-- Adding the values `cs` one by one onto the exact sum `a` never rounds:
every value is finite and every sum on the way is a `float64`. -/
def sumsExact : ℚ → List F64 → Bool
  | _, [] => true
  | a, F64.fin c :: cs => decide (F64.round (a + c) = F64.fin (a + c)) && sumsExact (a + c) cs
  | _, _ :: _ => false

/-- The arithmetic mean as the specification words it: the sum of the
closing prices at the indices `len - n - offset`, ..., `len - offset - 1`,
divided by `n`. -/
def specMean (pdl : PriceDataList) (n offset : Int) : ℚ :=
  ((List.range' ((pdl.length : Int) - n - offset).toNat n.toNat).map (closeAt pdl)).sum / (n : ℚ)

/-- The three windows `(n, offset)` that `generateSignal` samples. -/
def sampledWindows : List (Int × Int) := [(8, 0), (8, 1), (55, 0)]

/-- A window lies inside a list of length `len`. -/
def windowInside (len : Nat) (w : Int × Int) : Prop :=
  0 ≤ (len : Int) - w.1 - w.2 ∧ (len : Int) - w.2 ≤ (len : Int)

/-- What "well defined" asks of a call `sma(n, offset)`: the slice bounds are
in range and the divisor is not zero. -/
def smaWellDefined (pdl : PriceDataList) (n offset : Int) : Prop :=
  0 ≤ (pdl.length : Int) - n - offset ∧
  (pdl.length : Int) - n - offset ≤ (pdl.length : Int) - offset ∧
  (pdl.length : Int) - offset ≤ (pdl.length : Int) ∧ n ≠ 0

/-- A list of closing prices as a `PriceDataList`. -/
def ofCloses (cs : List ℚ) : PriceDataList := cs.map fun c => ⟨F64.fin c⟩

/-- One expected call of the mock provider (`main_test.go` lines 89-93). -/
structure SMAMockCall where
  n : Int
  offset : Int
  returnVal : F64

/-- The mock provider of the test suite (`main_test.go` lines 95-106): a call
`sma(n, offset)` that was registered answers its `returnVal`, any other call
aborts.  `isValid` is registered by no test and never called by
`generateSignal`. -/
def mockSMACalls (mockCalls : List SMAMockCall) : SMA :=
  ⟨fun n offset =>
    (mockCalls.find? fun mc => decide (mc.n = n ∧ mc.offset = offset)).map
      SMAMockCall.returnVal, false⟩

/-- The three registrations every signal test makes: current SMA(8),
previous SMA(8), SMA(55). -/
def mockSamples (curr8 prev8 curr55 : F64) : SMA :=
  mockSMACalls [⟨8, 0, curr8⟩, ⟨8, 1, prev8⟩, ⟨55, 0, curr55⟩]

/-! ## Periods (`main.go` lines 56-78) -/

/-- `time.Duration`: a number of nanoseconds. -/
abbrev Duration := Int

/-- `time.Second`, in nanoseconds. -/
def Second : Duration := 1000000000

/-- `time.Minute`. -/
def Minute : Duration := 60 * Second

/-- `time.Hour`. -/
def Hour : Duration := 60 * Minute

/-- `func parsePeriod(period string) (time.Duration, error)`: the duration
and the error, `none` for `nil`, an error being its message. -/
def parsePeriod (period : String) : Duration × Option String :=
  if period = "1m" then (Minute, none)
  else if period = "5m" then (Minute * 5, none)
  else if period = "15m" then (Minute * 15, none)
  else if period = "30m" then (Minute * 30, none)
  else if period = "1h" then (Hour, none)
  else if period = "2h" then (Hour * 2, none)
  else if period = "4h" then (Hour * 4, none)
  else if period = "1d" then (Hour * 24, none)
  else ((0 : Duration), some ("Invalid period " ++ period))

/-- The eight period strings that `parsePeriod` accepts. -/
def supportedPeriods : List String :=
  ["1m", "5m", "15m", "30m", "1h", "2h", "4h", "1d"]

/-! ## Fetching and the request handler (`main.go` lines 80-165) -/

/-- What the program takes from outside: the clock (`time.Now()`, in
nanoseconds since the epoch), the network (`http.Get`, answering a body or
an error message) and the JSON decoder (`decoder.Decode(&pdl)` on an empty
list, leaving a list and an error or `nil`). -/
structure Env where
  now : Int
  httpGet : String → Except String String
  decode : String → PriceDataList × Option String

/-- `Time.Unix()`: whole seconds since the epoch. -/
def unix (t : Int) : Int := t / Second

/-- The outcome of `fetchPriceData`: the two returned values, and the URLs
handed to `http.Get` on the way, in order. -/
structure FetchResult where
  pdl : PriceDataList
  err : Option String
  requests : List String

/-- `func fetchPriceData(exchange string, pair string, period string)
(PriceDataList, error)`. -/
def fetchPriceData (env : Env) (exchange pair period : String) : FetchResult :=
  let periodDuration := (parsePeriod period).1
  let err := (parsePeriod period).2
  let pdl : PriceDataList := []
  match err with
  | some e => ⟨pdl, some e, []⟩
  | none =>
    let endTime := env.now
    let startTime := endTime + -(periodDuration * 55)
    let url :=
      "http://cryptohopper-ticker-frontend.us-east-1.elasticbeanstalk.com/v1/" ++ exchange
        ++ "/candles?pair=" ++ pair
        ++ "&start=" ++ toString (unix startTime)
        ++ "&end=" ++ toString (unix endTime)
        ++ "&period=" ++ period
    match env.httpGet url with
    | Except.error e => ⟨pdl, some e, [url]⟩
    | Except.ok body =>
      match env.decode body with
      | (decoded, some e) => ⟨decoded, some e, [url]⟩
      | (decoded, none) => ⟨decoded, none, [url]⟩

/-- The query parameters the handler reads from the request. -/
structure Request where
  exchange : String
  pair : String
  period : String

/-- What the handler writes: the status code (200 when the handler writes a
body without `WriteHeader`) and the body. -/
structure Response where
  status : Nat
  body : String
  deriving DecidableEq

/-- The calls of this program that the handler makes after fetching. -/
inductive Call where
  | isValid : Call
  | generateSignal : Call
  deriving DecidableEq

/-- One run of the handler: the response (`none` if the run panicked), the
URLs requested and the calls made, in order. -/
structure HandlerRun where
  response : Option Response
  requests : List String
  calls : List Call

/-- `func signal(w http.ResponseWriter, r *http.Request)`. -/
def signal (env : Env) (r : Request) : HandlerRun :=
  let exchange := r.exchange
  let pair := r.pair
  let period := r.period
  let fetched := fetchPriceData env exchange pair period
  match fetched.err with
  | some err => ⟨some ⟨400, "Error: " ++ err⟩, fetched.requests, []⟩
  | none =>
    if !fetched.pdl.isValid then
      ⟨some ⟨500, "Insufficient data available for the requested time range"⟩,
        fetched.requests, [Call.isValid]⟩
    else
      match generateSignal fetched.pdl.toSMA with
      | none => ⟨none, fetched.requests, [Call.isValid, Call.generateSignal]⟩
      | some signal => ⟨some ⟨200, signal⟩, fetched.requests, [Call.isValid, Call.generateSignal]⟩

/-! ## Providers with hidden state -/

/-- An implementation of the interface `SMA` may keep state between calls (a
mock counts its calls, a cache fills): `sma` reads the state and leaves a new
one. -/
structure StatefulSMA (σ : Type) where
  sma : σ → Int → Int → Option (F64 × σ)

/-- `func generateSignal(s SMA) string` on a provider with state: the three
calls are made in the order of the source, each on the state the one before
left. -/
def generateSignalFrom {σ : Type} (p : StatefulSMA σ) (st : σ) : Option (String × σ) :=
  (p.sma st 8 0).bind fun r1 =>
  (p.sma r1.2 8 1).bind fun r2 =>
  (p.sma r2.2 55 0).bind fun r3 =>
    let currentSma8 := r1.1
    let prevSma8 := r2.1
    let currentSma55 := r3.1
    let prevHigherOrSame := F64.ge prevSma8 currentSma55
    let prevLowerOrSame := F64.le prevSma8 currentSma55
    let currentLower := F64.lt currentSma8 currentSma55
    let currentHigher := F64.gt currentSma8 currentSma55
    if currentLower && prevHigherOrSame then some (SignalSell, r3.2)
    else if currentHigher && prevLowerOrSame then some (SignalBuy, r3.2)
    else some (SignalNeutral, r3.2)

/-- A `PriceDataList` as a provider with state, the state being the list:
`sma` has a value receiver and only reads the elements, so it leaves the list
it was given. -/
def PriceDataList.stateful : StatefulSMA PriceDataList :=
  ⟨fun pdl n offset => (pdl.sma n offset).map fun v => (v, pdl)⟩

/-- A provider that counts its calls and answers the three samples with fixed
values. -/
def countingSamples (curr8 prev8 curr55 : F64) : StatefulSMA Nat :=
  ⟨fun calls n offset => ((mockSamples curr8 prev8 curr55).sma n offset).map fun v =>
    (v, calls + 1)⟩

/-! ## Transformations of a series -/

/-- Every closing price negated. -/
def negCloses (pdl : PriceDataList) : PriceDataList :=
  pdl.map fun pd => ⟨F64.neg pd.Close⟩

/-- Every closing price multiplied by `c`, the product being a `float64`
product. -/
def scaleCloses (c : ℚ) (pdl : PriceDataList) : PriceDataList :=
  pdl.map fun pd => ⟨F64.mul (F64.fin c) pd.Close⟩

/-! ## Fixtures -/

/-- An outside world in the manner of the HTTP mock of `TestFetchPriceData`:
every request is answered, and the answer decodes to `pdl` without error. -/
def stubEnv (pdl : PriceDataList) : Env :=
  ⟨0, fun _ => Except.ok "", fun _ => (pdl, none)⟩

/-- A series of 55 candles that closes at 1 for 54 periods and then at 2: the
short average has just risen above the long one. -/
def risingSeries : PriceDataList := ofCloses (List.replicate 54 1 ++ [2])

/-- A series of 55 candles that closes at 1 for 54 periods and then at 56: its
three samples are `63/8`, `1` and `2`, computed without any rounding. -/
def jumpSeries : PriceDataList := ofCloses (List.replicate 54 1 ++ [56])

/-- Three closes whose mean `4/3` is not a `float64`. -/
def thirdsSeries : PriceDataList := ofCloses [1, 1, 2]

/-- A series of 55 candles in which a close of `1` is absorbed when it is
added after `2 ^ 53` and kept when it is added before: the closes at the
indices 46 and 54 are both `1`. -/
def absorbedSeries : PriceDataList :=
  ofCloses ([47 * twoPow 50 + 8] ++ List.replicate 45 0 ++ [1, 1, twoPow 53]
    ++ List.replicate 5 0 ++ [1])

/-- A series of 55 candles with closes near the top of the `float64` range:
46 closes at `0`, one at `12 * 2 ^ 1019`, eight at `2 ^ 1019`. -/
def hugeSeries : PriceDataList :=
  ofCloses (List.replicate 46 0 ++ [12 * twoPow 1019] ++ List.replicate 8 (twoPow 1019))

/-! ## Helper lemmas -/

set_option maxRecDepth 100000

theorem map_closeAt_range (pdl : PriceDataList) (s n : Nat) (h : s + n ≤ pdl.length) :
    (List.range' s n).map (closeAt pdl)
      = (((pdl.drop s).take n).map PriceData.Close).map F64.toRat := by
  apply List.ext_getElem
  · simp; omega
  · intro i h1 h2
    simp at h1
    have h3 : s + i < pdl.length := by omega
    simp [closeAt, List.getD, List.getElem?_eq_getElem h3]

theorem sma_eq_of_window (pdl : PriceDataList) (n offset : Int)
    (hn : 0 ≤ n) (ho : 0 ≤ offset) (hlen : n + offset ≤ (pdl.length : Int)) :
    pdl.sma n offset = some (F64.div
      ((windowCloses pdl n offset).foldl F64.add (F64.fin 0)) (F64.ofInt n)) := by
  have hc : 0 ≤ (pdl.length : Int) - n - offset ∧
      (pdl.length : Int) - n - offset ≤ (pdl.length : Int) - offset ∧
      (pdl.length : Int) - offset ≤ (pdl.length : Int) := by omega
  have he : (pdl.length : Int) - offset - ((pdl.length : Int) - n - offset) = n := by ring
  simp only [PriceDataList.sma, PriceDataList.slice, if_pos hc, he, windowCloses,
    List.foldl_map]

theorem specMean_eq_window (pdl : PriceDataList) (n offset : Int)
    (hn : 0 ≤ n) (ho : 0 ≤ offset) (hlen : n + offset ≤ (pdl.length : Int)) :
    specMean pdl n offset = ((windowCloses pdl n offset).map F64.toRat).sum / (n : ℚ) := by
  have hs : ((pdl.length : Int) - n - offset).toNat + n.toNat ≤ pdl.length := by omega
  simp only [specMean, windowCloses, map_closeAt_range pdl _ _ hs]

/-- When no addition rounds, the `float64` sum is the exact sum. -/
theorem foldl_add_exact (cs : List F64) (a : ℚ) (h : sumsExact a cs = true) :
    cs.foldl F64.add (F64.fin a) = F64.fin (a + (cs.map F64.toRat).sum) := by
  induction cs generalizing a with
  | nil => simp
  | cons c cs ih =>
    cases c with
    | nan => simp [sumsExact] at h
    | negInf => simp [sumsExact] at h
    | posInf => simp [sumsExact] at h
    | fin q =>
      simp only [sumsExact, Bool.and_eq_true, decide_eq_true_eq] at h
      simp only [List.foldl_cons, F64.add, h.1, ih (a + q) h.2, List.map_cons, F64.toRat,
        List.sum_cons, add_assoc]

/-- When no operation rounds, `sma` returns the exact mean. -/
theorem sma_of_exact (pdl : PriceDataList) (n offset : Int)
    (hn : 1 ≤ n) (ho : 0 ≤ offset) (hlen : n + offset ≤ (pdl.length : Int))
    (hsum : sumsExact 0 (windowCloses pdl n offset) = true)
    (hdiv : F64.ofInt n = F64.fin (n : ℚ))
    (hmean : F64.round (specMean pdl n offset) = F64.fin (specMean pdl n offset)) :
    pdl.sma n offset = some (F64.fin (specMean pdl n offset)) := by
  have hn0 : ¬ ((n : ℚ) = 0) := by
    have : (0 : ℚ) < (n : ℚ) := by exact_mod_cast (by omega : (0 : Int) < n)
    exact ne_of_gt this
  rw [sma_eq_of_window pdl n offset (by omega) ho hlen, foldl_add_exact _ 0 hsum, hdiv,
    zero_add]
  simp only [F64.div, if_neg hn0]
  rw [← specMean_eq_window pdl n offset (by omega) ho hlen, hmean]

theorem F64.lt_asymm_bool (a b : F64) (h : F64.lt a b = true) : F64.lt b a = false := by
  cases a <;> cases b <;> simp_all [F64.lt]
  exact le_of_lt h

theorem F64.lt_irrefl_bool (a : F64) : F64.lt a a = false := by
  cases a <;> simp [F64.lt]

theorem F64.eq_imp_eq (a b : F64) (h : F64.eq a b = true) : a = b := by
  cases a <;> cases b <;> simp_all [F64.eq]

/-- A value that compares with something is not `NaN`, hence `<=` itself. -/
theorem F64.le_refl_of_lt (a b : F64) (h : F64.lt a b = true) :
    F64.le a a = true ∧ F64.le b b = true := by
  cases a <;> cases b <;> simp_all [F64.lt, F64.le]

theorem generateSignal_of_samples (s : SMA) (curr8 prev8 curr55 : F64)
    (h1 : s.sma 8 0 = some curr8) (h2 : s.sma 8 1 = some prev8)
    (h3 : s.sma 55 0 = some curr55) :
    generateSignal s =
      if F64.lt curr8 curr55 && F64.ge prev8 curr55 then some SignalSell
      else if F64.gt curr8 curr55 && F64.le prev8 curr55 then some SignalBuy
      else some SignalNeutral := by
  simp [generateSignal, h1, h2, h3]

theorem generateSignal_some_of_samples (s : SMA) (curr8 prev8 curr55 : F64)
    (h1 : s.sma 8 0 = some curr8) (h2 : s.sma 8 1 = some prev8)
    (h3 : s.sma 55 0 = some curr55) :
    ∃ r, generateSignal s = some r ∧ (r = "BUY" ∨ r = "SELL" ∨ r = "NEUTRAL") := by
  rw [generateSignal_of_samples s curr8 prev8 curr55 h1 h2 h3]
  by_cases ha : (F64.lt curr8 curr55 && F64.ge prev8 curr55) = true
  · exact ⟨"SELL", by rw [if_pos ha]; rfl, Or.inr (Or.inl rfl)⟩
  · by_cases hb : (F64.gt curr8 curr55 && F64.le prev8 curr55) = true
    · exact ⟨"BUY", by rw [if_neg ha, if_pos hb]; rfl, Or.inl rfl⟩
    · exact ⟨"NEUTRAL", by rw [if_neg ha, if_neg hb]; rfl, Or.inr (Or.inr rfl)⟩

theorem sma_isSome_iff (pdl : PriceDataList) (n offset : Int) :
    (pdl.sma n offset).isSome = true ↔
      (0 ≤ (pdl.length : Int) - n - offset ∧
        (pdl.length : Int) - n - offset ≤ (pdl.length : Int) - offset ∧
        (pdl.length : Int) - offset ≤ (pdl.length : Int)) := by
  by_cases hc : 0 ≤ (pdl.length : Int) - n - offset ∧
      (pdl.length : Int) - n - offset ≤ (pdl.length : Int) - offset ∧
      (pdl.length : Int) - offset ≤ (pdl.length : Int)
  · refine ⟨fun _ => hc, fun _ => ?_⟩
    simp only [PriceDataList.sma, PriceDataList.slice, if_pos hc]
    rfl
  · refine ⟨fun h => ?_, fun h => absurd h hc⟩
    simp only [PriceDataList.sma, PriceDataList.slice, if_neg hc] at h
    exact absurd h (by simp)

theorem parsePeriod_of_unsupported (s : String) (hs : s ∉ supportedPeriods) :
    parsePeriod s = ((0 : Duration), some ("Invalid period " ++ s)) := by
  simp only [supportedPeriods, List.mem_cons, List.mem_singleton, List.mem_nil_iff,
    or_false, not_or] at hs
  obtain ⟨h1, h2, h3, h4, h5, h6, h7, h8⟩ := hs
  simp only [parsePeriod, if_neg h1, if_neg h2, if_neg h3, if_neg h4, if_neg h5, if_neg h6,
    if_neg h7, if_neg h8]

theorem generateSignal_some_of_valid (pdl : PriceDataList) (h : 55 ≤ pdl.length) :
    ∃ r, generateSignal pdl.toSMA = some r := by
  obtain ⟨a, ha⟩ := Option.isSome_iff_exists.mp ((sma_isSome_iff pdl 8 0).mpr (by omega))
  obtain ⟨b, hb⟩ := Option.isSome_iff_exists.mp ((sma_isSome_iff pdl 8 1).mpr (by omega))
  obtain ⟨c, hc⟩ := Option.isSome_iff_exists.mp ((sma_isSome_iff pdl 55 0).mpr (by omega))
  obtain ⟨r, hr, -⟩ := generateSignal_some_of_samples pdl.toSMA a b c ha hb hc
  exact ⟨r, hr⟩

theorem F64.not_le_of_lt (a b : F64) (h : F64.lt a b = true) : F64.le b a = false := by
  cases a <;> cases b <;> simp_all [F64.lt, F64.le]

theorem generateSignalFrom_of_samples {σ : Type} (p : StatefulSMA σ) (st st1 st2 st3 : σ)
    (a b c : F64) (h1 : p.sma st 8 0 = some (a, st1)) (h2 : p.sma st1 8 1 = some (b, st2))
    (h3 : p.sma st2 55 0 = some (c, st3)) :
    generateSignalFrom p st =
      (if F64.lt a c && F64.ge b c then some SignalSell
        else if F64.gt a c && F64.le b c then some SignalBuy
        else some SignalNeutral).map fun r => (r, st3) := by
  simp only [generateSignalFrom, h1, h2, h3, Option.some_bind]
  split_ifs <;> rfl

theorem generateSignalFrom_fixed {σ : Type} (p : StatefulSMA σ) (curr8 prev8 curr55 : F64)
    (hsame : ∀ st, (∃ st1, p.sma st 8 0 = some (curr8, st1)) ∧
      (∃ st1, p.sma st 8 1 = some (prev8, st1)) ∧
      (∃ st1, p.sma st 55 0 = some (curr55, st1)))
    (st : σ) :
    ∃ st3, generateSignalFrom p st =
      (if F64.lt curr8 curr55 && F64.ge prev8 curr55 then some SignalSell
        else if F64.gt curr8 curr55 && F64.le prev8 curr55 then some SignalBuy
        else some SignalNeutral).map fun r => (r, st3) := by
  obtain ⟨st1, h1⟩ := (hsame st).1
  obtain ⟨st2, h2⟩ := (hsame st1).2.1
  obtain ⟨st3, h3⟩ := (hsame st2).2.2
  exact ⟨st3, generateSignalFrom_of_samples p st st1 st2 st3 curr8 prev8 curr55 h1 h2 h3⟩

theorem generateSignalFrom_list (pdl : PriceDataList) :
    generateSignalFrom PriceDataList.stateful pdl
      = (generateSignal pdl.toSMA).map fun r => (r, pdl) := by
  simp only [generateSignalFrom, generateSignal, PriceDataList.stateful, PriceDataList.toSMA]
  rcases h1 : pdl.sma 8 0 with _ | a
  · rfl
  · simp only [Option.map_some', Option.some_bind]
    rcases h2 : pdl.sma 8 1 with _ | b
    · rfl
    · simp only [Option.map_some', Option.some_bind]
      rcases h3 : pdl.sma 55 0 with _ | c
      · rfl
      · simp only [Option.map_some', Option.some_bind]
        split_ifs <;> rfl

theorem sma_of_last (pdl : PriceDataList) (n offset : Int) (hn : 0 ≤ n) (ho : 0 ≤ offset)
    (hw : n + offset ≤ 55) (hlen : 55 ≤ pdl.length) :
    pdl.sma n offset = PriceDataList.sma (pdl.drop (pdl.length - 55)) n offset := by
  have hl : (pdl.drop (pdl.length - 55)).length = 55 := by
    rw [List.length_drop]; omega
  rw [sma_eq_of_window pdl n offset hn ho (by omega),
    sma_eq_of_window (pdl.drop (pdl.length - 55)) n offset hn ho (by rw [hl]; omega)]
  have hidx : pdl.length - 55
      + (((pdl.drop (pdl.length - 55)).length : Int) - n - offset).toNat
        = ((pdl.length : Int) - n - offset).toNat := by
    rw [hl]; omega
  simp only [windowCloses]
  rw [List.drop_drop, hidx]

theorem generateSignal_of_last (pdl : PriceDataList) (hlen : 55 ≤ pdl.length) :
    generateSignal pdl.toSMA
      = generateSignal (PriceDataList.toSMA (pdl.drop (pdl.length - 55))) := by
  simp only [generateSignal, PriceDataList.toSMA,
    sma_of_last pdl 8 0 (by decide) (by decide) (by decide) hlen,
    sma_of_last pdl 8 1 (by decide) (by decide) (by decide) hlen,
    sma_of_last pdl 55 0 (by decide) (by decide) (by decide) hlen]

theorem F64.neg_involutive (a : F64) : F64.neg (F64.neg a) = a := by
  cases a <;> simp [F64.neg]

theorem F64.round_neg (q : ℚ) : F64.round (-q) = F64.neg (F64.round q) := by
  rcases lt_trichotomy q 0 with h | h | h
  · have h1 : ¬ (-q = 0) := by intro hq; linarith
    have h2 : (0 : ℚ) < -q := by linarith
    have h3 : ¬ (q = 0) := ne_of_lt h
    have h4 : ¬ ((0 : ℚ) < q) := not_lt.mpr (le_of_lt h)
    simp only [F64.round, if_neg h1, if_pos h2, if_neg h3, if_neg h4, F64.neg_involutive]
  · subst h
    simp [F64.round, F64.neg]
  · have h1 : ¬ (-q = 0) := by intro hq; linarith
    have h2 : ¬ ((0 : ℚ) < -q) := by intro hq; linarith
    have h3 : ¬ (q = 0) := ne_of_gt h
    have h5 : - -q = q := by ring
    simp only [F64.round, if_neg h1, if_neg h2, if_neg h3, if_pos h, h5]

theorem F64.add_neg (a b : F64) : F64.add (F64.neg a) (F64.neg b) = F64.neg (F64.add a b) := by
  cases a <;> cases b <;> try rfl
  case fin.fin p q =>
    show F64.round (-p + -q) = F64.neg (F64.round (p + q))
    rw [← neg_add, F64.round_neg]

theorem F64.div_neg (a b : F64) : F64.div (F64.neg a) b = F64.neg (F64.div a b) := by
  cases a with
  | nan => cases b <;> rfl
  | negInf =>
    cases b with
    | fin q => by_cases h : 0 ≤ q <;> simp [F64.div, F64.neg, h]
    | nan => rfl
    | negInf => rfl
    | posInf => rfl
  | posInf =>
    cases b with
    | fin q => by_cases h : 0 ≤ q <;> simp [F64.div, F64.neg, h]
    | nan => rfl
    | negInf => rfl
    | posInf => rfl
  | fin p =>
    cases b with
    | nan => rfl
    | negInf => simp [F64.div, F64.neg]
    | posInf => simp [F64.div, F64.neg]
    | fin q =>
      by_cases hq : q = 0
      · rcases lt_trichotomy p 0 with h | h | h
        · have h1 : ¬ (-p = 0) := by intro hp; linarith
          have h2 : (0 : ℚ) < -p := by linarith
          have h3 : ¬ (p = 0) := ne_of_lt h
          have h4 : ¬ ((0 : ℚ) < p) := not_lt.mpr (le_of_lt h)
          simp only [F64.div, F64.neg, if_pos hq, if_neg h1, if_pos h2, if_neg h3, if_neg h4]
        · subst h
          simp [F64.div, F64.neg, hq]
        · have h1 : ¬ (-p = 0) := by intro hp; linarith
          have h2 : ¬ ((0 : ℚ) < -p) := by intro hp; linarith
          have h3 : ¬ (p = 0) := ne_of_gt h
          simp only [F64.div, F64.neg, if_pos hq, if_neg h1, if_neg h2, if_neg h3, if_pos h]
      · have e1 : F64.div (F64.neg (F64.fin p)) (F64.fin q) = F64.round (-p / q) := by
          simp only [F64.div, F64.neg, if_neg hq]
        have e2 : F64.div (F64.fin p) (F64.fin q) = F64.round (p / q) := by
          simp only [F64.div, if_neg hq]
        rw [e1, e2, neg_div, F64.round_neg]

theorem F64.lt_neg (a b : F64) : F64.lt (F64.neg a) (F64.neg b) = F64.lt b a := by
  cases a <;> cases b <;> simp [F64.lt, F64.neg]

theorem F64.le_neg (a b : F64) : F64.le (F64.neg a) (F64.neg b) = F64.le b a := by
  cases a <;> cases b <;> simp [F64.le, F64.neg]

theorem foldl_close_neg (l : PriceDataList) (a : F64) :
    (negCloses l).foldl (fun sum pd => F64.add sum pd.Close) (F64.neg a)
      = F64.neg (l.foldl (fun sum pd => F64.add sum pd.Close) a) := by
  induction l generalizing a with
  | nil => rfl
  | cons x xs ih =>
    have hx : negCloses (x :: xs) = ⟨F64.neg x.Close⟩ :: negCloses xs := rfl
    rw [hx, List.foldl_cons, List.foldl_cons, F64.add_neg, ih]

theorem sma_negCloses (pdl : PriceDataList) (n offset : Int) :
    (negCloses pdl).sma n offset = (pdl.sma n offset).map F64.neg := by
  have hl : (negCloses pdl).length = pdl.length := by simp [negCloses]
  have h0 : F64.neg (F64.fin 0) = F64.fin 0 := by simp [F64.neg]
  by_cases hc : 0 ≤ (pdl.length : Int) - n - offset ∧
      (pdl.length : Int) - n - offset ≤ (pdl.length : Int) - offset ∧
      (pdl.length : Int) - offset ≤ (pdl.length : Int)
  · have hs : ∀ s k : Nat, ((negCloses pdl).drop s).take k = negCloses ((pdl.drop s).take k) := by
      intro s k
      simp [negCloses, List.map_drop, List.map_take]
    simp only [PriceDataList.sma, PriceDataList.slice, hl, if_pos hc, hs, Option.map_some']
    have hf := foldl_close_neg
      ((pdl.drop ((pdl.length : Int) - n - offset).toNat).take
        ((pdl.length : Int) - offset - ((pdl.length : Int) - n - offset)).toNat) (F64.fin 0)
    rw [h0] at hf
    rw [hf, F64.div_neg]
  · simp only [PriceDataList.sma, PriceDataList.slice, hl, if_neg hc, Option.map_none']

theorem F64.lt_le_fin (a b : ℚ) (c : F64) (h1 : F64.lt (F64.fin a) c = true)
    (h2 : F64.le c (F64.fin b) = true) : a < b := by
  cases c <;> simp_all [F64.lt, F64.le]
  exact lt_of_lt_of_le h1 h2

theorem F64.le_lt_fin (a b : ℚ) (c : F64) (h1 : F64.le (F64.fin b) c = true)
    (h2 : F64.lt c (F64.fin a) = true) : b < a := by
  cases c <;> simp_all [F64.lt, F64.le]
  exact lt_of_le_of_lt h1 h2

theorem specMean_diff (pdl : PriceDataList) (hlen : 9 ≤ pdl.length) :
    specMean pdl 8 0 - specMean pdl 8 1
      = (closeAt pdl (pdl.length - 1) - closeAt pdl (pdl.length - 9)) / 8 := by
  obtain ⟨k, hk⟩ : ∃ k, pdl.length = k + 9 := ⟨pdl.length - 9, by omega⟩
  have e0 : ((pdl.length : Int) - 8 - 0).toNat = k + 1 := by omega
  have e1 : ((pdl.length : Int) - 8 - 1).toNat = k := by omega
  have e2 : pdl.length - 1 = k + 8 := by omega
  have e3 : pdl.length - 9 = k := by omega
  have e4 : (8 : Int).toNat = 8 := rfl
  simp only [specMean, e0, e1, e2, e3, e4, List.range', List.map_cons, List.map_nil,
    List.sum_cons, List.sum_nil]
  push_cast
  ring

/-- On three finite samples `generateSignal` compares rational numbers. -/
theorem generateSignal_of_fin (s : SMA) (m8 p8 m55 : ℚ)
    (h1 : s.sma 8 0 = some (F64.fin m8)) (h2 : s.sma 8 1 = some (F64.fin p8))
    (h3 : s.sma 55 0 = some (F64.fin m55)) :
    generateSignal s =
      if m8 < m55 ∧ m55 ≤ p8 then some SignalSell
      else if m55 < m8 ∧ p8 ≤ m55 then some SignalBuy
      else some SignalNeutral := by
  rw [generateSignal_of_samples s _ _ _ h1 h2 h3]
  simp only [F64.lt, F64.le, F64.gt, F64.ge, Bool.and_eq_true, decide_eq_true_eq]

theorem closeAt_scaleCloses (c : ℚ) (pdl : PriceDataList)
    (hmul : ∀ pd ∈ pdl, F64.mul (F64.fin c) pd.Close = F64.fin (c * pd.Close.toRat))
    (i : Nat) :
    closeAt (scaleCloses c pdl) i = c * closeAt pdl i := by
  by_cases hi : i < pdl.length
  · have hi2 : i < (scaleCloses c pdl).length := by simpa [scaleCloses] using hi
    have hm := hmul pdl[i] (List.getElem_mem hi)
    have hs : (scaleCloses c pdl)[i] = ⟨F64.mul (F64.fin c) pdl[i].Close⟩ := by
      simp only [scaleCloses, List.getElem_map]
    simp only [closeAt, List.getD_eq_getElem?_getD, List.getElem?_eq_getElem hi,
      List.getElem?_eq_getElem hi2, Option.getD_some, hs, hm]
    rfl
  · have hi2 : ¬ i < (scaleCloses c pdl).length := by simpa [scaleCloses] using hi
    have e1 : pdl[i]? = none := List.getElem?_eq_none (by omega)
    have e2 : (scaleCloses c pdl)[i]? = none := List.getElem?_eq_none (by omega)
    simp only [closeAt, List.getD_eq_getElem?_getD, e1, e2, Option.getD_none]
    show (0 : ℚ) = c * 0
    rw [mul_zero]

theorem specMean_scaleCloses (c : ℚ) (pdl : PriceDataList)
    (hmul : ∀ pd ∈ pdl, F64.mul (F64.fin c) pd.Close = F64.fin (c * pd.Close.toRat))
    (n offset : Int) :
    specMean (scaleCloses c pdl) n offset = c * specMean pdl n offset := by
  have hl : (scaleCloses c pdl).length = pdl.length := by simp [scaleCloses]
  have hf : closeAt (scaleCloses c pdl) = fun i => c * closeAt pdl i :=
    funext (closeAt_scaleCloses c pdl hmul)
  simp only [specMean, hl, hf, List.sum_map_mul_left, mul_div_assoc]

theorem risingSeries_length : 55 ≤ risingSeries.length := by
  decide

theorem generateSignal_risingSeries : generateSignal risingSeries.toSMA = some "BUY" := by
  decide!

theorem jumpSeries_length : 55 ≤ jumpSeries.length := by
  decide

theorem generateSignal_jumpSeries : generateSignal jumpSeries.toSMA = some "BUY" := by
  decide!

/-! ## The claims -/

/-- C1 fails as stated: the three closes `1, 1, 2` are `float64` values, their
exact mean is `4/3`, and `sma(3, 0)` returns the `float64` nearest to it,
`6004799503160661 / 2^52`. -/
theorem sma_rounds_the_mean :
    (∀ pd ∈ thirdsSeries, F64.isFloat64 pd.Close = true) ∧
    specMean thirdsSeries 3 0 = 4 / 3 ∧
    thirdsSeries.sma 3 0 = some (F64.fin (6004799503160661 / 4503599627370496)) ∧
    thirdsSeries.sma 3 0 ≠ some (F64.fin (specMean thirdsSeries 3 0)) := by
  decide!

/-- C1 (amended): for `n ≥ 1`, `offset ≥ 0` and `n + offset ≤ len(pdl)`,
`pdl.sma(n, offset)` is the `float64` quotient, by `float64(n)`, of the `float64`
sum, taken from left to right, of the closing prices at the indices
`len - n - offset` up to but not including `len - offset`; it is their exact
arithmetic mean whenever these prices are finite, no sum on the way is
rounded, `float64(n)` is exact and the mean is itself a `float64`. -/
theorem sma_eq_specMean (pdl : PriceDataList) (n offset : Int)
    (hn : 1 ≤ n) (ho : 0 ≤ offset) (hlen : n + offset ≤ (pdl.length : Int)) :
    pdl.sma n offset = some (F64.div
      ((windowCloses pdl n offset).foldl F64.add (F64.fin 0)) (F64.ofInt n)) ∧
    (sumsExact 0 (windowCloses pdl n offset) = true →
      F64.ofInt n = F64.fin (n : ℚ) →
      F64.round (specMean pdl n offset) = F64.fin (specMean pdl n offset) →
      pdl.sma n offset = some (F64.fin (specMean pdl n offset))) :=
  ⟨sma_eq_of_window pdl n offset (by omega) ho hlen,
    sma_of_exact pdl n offset hn ho hlen⟩

theorem sma_eq_specMean_witness :
    (ofCloses [7, 3, 5, 1, 9, 3, 4, 5]).sma 8 0
        = some (F64.fin (specMean (ofCloses [7, 3, 5, 1, 9, 3, 4, 5]) 8 0)) ∧
      specMean (ofCloses [7, 3, 5, 1, 9, 3, 4, 5]) 8 0 = 37 / 8 :=
  ⟨(sma_eq_specMean (ofCloses [7, 3, 5, 1, 9, 3, 4, 5]) 8 0 (by decide) (by decide)
      (by decide)).2 (by decide!) (by decide!) (by decide!),
    by decide!⟩

/-- C2: when the provider yields the three samples `curr8 = sma(8,0)`,
`prev8 = sma(8,1)`, `curr55 = sma(55,0)`, `generateSignal` returns `"SELL"` if and
only if `curr8 < curr55` and `prev8 >= curr55`. -/
theorem generateSignal_sell_iff (s : SMA) (curr8 prev8 curr55 : F64)
    (h1 : s.sma 8 0 = some curr8) (h2 : s.sma 8 1 = some prev8)
    (h3 : s.sma 55 0 = some curr55) :
    generateSignal s = some "SELL" ↔
      (F64.lt curr8 curr55 = true ∧ F64.ge prev8 curr55 = true) := by
  rw [generateSignal_of_samples s curr8 prev8 curr55 h1 h2 h3]
  by_cases ha : F64.lt curr8 curr55 = true <;> by_cases hb : F64.ge prev8 curr55 = true <;>
    by_cases hc : F64.gt curr8 curr55 = true <;> by_cases hd : F64.le prev8 curr55 = true <;>
    simp [ha, hb, hc, hd, SignalSell, SignalBuy, SignalNeutral]

theorem generateSignal_sell_iff_witness :
    generateSignal (mockSamples (F64.fin 400) (F64.fin 450) (F64.fin 450)) = some "SELL" ↔
      (F64.lt (F64.fin 400) (F64.fin 450) = true ∧
        F64.ge (F64.fin 450) (F64.fin 450) = true) :=
  generateSignal_sell_iff (mockSamples (F64.fin 400) (F64.fin 450) (F64.fin 450))
    (F64.fin 400) (F64.fin 450) (F64.fin 450) rfl rfl rfl

/-- C3: when the provider yields the three samples, `generateSignal` returns
`"BUY"` if and only if `curr8 > curr55` and `prev8 <= curr55`; the SELL test
that runs first never pre-empts it. -/
theorem generateSignal_buy_iff (s : SMA) (curr8 prev8 curr55 : F64)
    (h1 : s.sma 8 0 = some curr8) (h2 : s.sma 8 1 = some prev8)
    (h3 : s.sma 55 0 = some curr55) :
    generateSignal s = some "BUY" ↔
      (F64.gt curr8 curr55 = true ∧ F64.le prev8 curr55 = true) := by
  rw [generateSignal_of_samples s curr8 prev8 curr55 h1 h2 h3]
  by_cases ha : F64.lt curr8 curr55 = true
  · have hc : F64.gt curr8 curr55 = false := F64.lt_asymm_bool _ _ ha
    by_cases hb : F64.ge prev8 curr55 = true <;>
      simp [ha, hb, hc, SignalSell, SignalBuy, SignalNeutral]
  · by_cases hc : F64.gt curr8 curr55 = true <;> by_cases hd : F64.le prev8 curr55 = true <;>
      simp [ha, hc, hd, SignalSell, SignalBuy, SignalNeutral]

theorem generateSignal_buy_iff_witness :
    generateSignal (mockSamples (F64.fin 500) (F64.fin 400) (F64.fin 450)) = some "BUY" ↔
      (F64.gt (F64.fin 500) (F64.fin 450) = true ∧
        F64.le (F64.fin 400) (F64.fin 450) = true) :=
  generateSignal_buy_iff (mockSamples (F64.fin 500) (F64.fin 400) (F64.fin 450))
    (F64.fin 500) (F64.fin 400) (F64.fin 450) rfl rfl rfl

/-- C4: when the current short average equals the long average
(`sma(8,0) = sma(55,0)` as values, which Go `==` implies), `generateSignal`
returns `"NEUTRAL"` whatever the previous short average is. -/
theorem generateSignal_neutral_of_curr_eq (s : SMA) (curr8 prev8 curr55 : F64)
    (h1 : s.sma 8 0 = some curr8) (h2 : s.sma 8 1 = some prev8)
    (h3 : s.sma 55 0 = some curr55) (heq : curr8 = curr55) :
    generateSignal s = some "NEUTRAL" := by
  rw [generateSignal_of_samples s curr8 prev8 curr55 h1 h2 h3]
  subst heq
  simp [F64.gt, F64.lt_irrefl_bool, SignalNeutral]

theorem generateSignal_neutral_of_curr_eq_witness :
    generateSignal (mockSamples (F64.fin 450) (F64.fin 400) (F64.fin 450)) = some "NEUTRAL" :=
  generateSignal_neutral_of_curr_eq (mockSamples (F64.fin 450) (F64.fin 400) (F64.fin 450))
    (F64.fin 450) (F64.fin 400) (F64.fin 450) rfl rfl rfl rfl

/-- C5: when the previous short average equals the long average
(`sma(8,1) = sma(55,0)` as values, which Go `==` implies), the current short
average alone decides:
`"SELL"` when it is below the long average, `"BUY"` when it is above,
`"NEUTRAL"` when it is equal. -/
theorem generateSignal_of_prev_eq (s : SMA) (curr8 prev8 curr55 : F64)
    (h1 : s.sma 8 0 = some curr8) (h2 : s.sma 8 1 = some prev8)
    (h3 : s.sma 55 0 = some curr55) (heq : prev8 = curr55) :
    (F64.lt curr8 curr55 = true → generateSignal s = some "SELL") ∧
    (F64.gt curr8 curr55 = true → generateSignal s = some "BUY") ∧
    (curr8 = curr55 → generateSignal s = some "NEUTRAL") := by
  rw [generateSignal_of_samples s curr8 prev8 curr55 h1 h2 h3]
  subst heq
  refine ⟨fun ha => ?_, fun hc => ?_, fun he => ?_⟩
  · have hle := (F64.le_refl_of_lt curr8 prev8 ha).2
    simp [ha, F64.ge, hle, SignalSell]
  · have ha : F64.lt curr8 prev8 = false := F64.lt_asymm_bool _ _ hc
    have hle := (F64.le_refl_of_lt prev8 curr8 hc).1
    simp [ha, hc, hle, SignalBuy]
  · subst he
    simp [F64.gt, F64.lt_irrefl_bool, SignalNeutral]

theorem generateSignal_of_prev_eq_witness :
    (F64.lt (F64.fin 400) (F64.fin 450) = true →
      generateSignal (mockSamples (F64.fin 400) (F64.fin 450) (F64.fin 450)) = some "SELL") ∧
    (F64.gt (F64.fin 400) (F64.fin 450) = true →
      generateSignal (mockSamples (F64.fin 400) (F64.fin 450) (F64.fin 450)) = some "BUY") ∧
    (F64.fin 400 = F64.fin 450 →
      generateSignal (mockSamples (F64.fin 400) (F64.fin 450) (F64.fin 450))
        = some "NEUTRAL") :=
  generateSignal_of_prev_eq (mockSamples (F64.fin 400) (F64.fin 450) (F64.fin 450))
    (F64.fin 400) (F64.fin 450) (F64.fin 450) rfl rfl rfl rfl

/-- C6: for any three samples, not-a-number and infinities included,
`generateSignal` returns one of the three constants `"BUY"`, `"SELL"`,
`"NEUTRAL"` and nothing else; the three constants are pairwise different, so
exactly one of them is returned. -/
theorem generateSignal_closed_enum (s : SMA) (curr8 prev8 curr55 : F64)
    (h1 : s.sma 8 0 = some curr8) (h2 : s.sma 8 1 = some prev8)
    (h3 : s.sma 55 0 = some curr55) :
    (∃ r, generateSignal s = some r ∧ (r = "BUY" ∨ r = "SELL" ∨ r = "NEUTRAL")) ∧
    SignalBuy = "BUY" ∧ SignalSell = "SELL" ∧ SignalNeutral = "NEUTRAL" ∧
    SignalBuy ≠ SignalSell ∧ SignalBuy ≠ SignalNeutral ∧ SignalSell ≠ SignalNeutral :=
  ⟨generateSignal_some_of_samples s curr8 prev8 curr55 h1 h2 h3, rfl, rfl, rfl,
    by decide, by decide, by decide⟩

theorem generateSignal_closed_enum_witness :
    (∃ r, generateSignal (mockSamples F64.nan F64.posInf F64.nan) = some r ∧
      (r = "BUY" ∨ r = "SELL" ∨ r = "NEUTRAL")) ∧
    SignalBuy = "BUY" ∧ SignalSell = "SELL" ∧ SignalNeutral = "NEUTRAL" ∧
    SignalBuy ≠ SignalSell ∧ SignalBuy ≠ SignalNeutral ∧ SignalSell ≠ SignalNeutral :=
  generateSignal_closed_enum (mockSamples F64.nan F64.posInf F64.nan)
    F64.nan F64.posInf F64.nan rfl rfl rfl

/-- C7: `pdl.isValid()` is true if and only if `len(pdl) >= 55`; two lists of
the same length have the same validity whatever their closing prices. -/
theorem isValid_iff_length (pdl : PriceDataList) :
    (pdl.isValid = true ↔ 55 ≤ pdl.length) ∧
    ∀ other : PriceDataList, other.length = pdl.length → other.isValid = pdl.isValid := by
  refine ⟨by simp [PriceDataList.isValid, MinPriceDataLength], fun other h => ?_⟩
  simp [PriceDataList.isValid, h]

/-- C8: `pdl.isValid()` holds if and only if the three windows sampled by
`generateSignal`, `(8,0)`, `(8,1)` and `(55,0)`, lie inside the list, which is
when the three calls of `sma` do not panic; on a valid list `generateSignal`
returns a signal, and on every shorter list it panics, so 55 is the smallest
sufficient length. -/
theorem isValid_iff_windows_inside (pdl : PriceDataList) :
    (pdl.isValid = true ↔ ∀ w ∈ sampledWindows, windowInside pdl.length w) ∧
    (pdl.isValid = true ↔ ∀ w ∈ sampledWindows, ∃ v, pdl.sma w.1 w.2 = some v) ∧
    (pdl.isValid = true → ∃ r, generateSignal pdl.toSMA = some r) ∧
    (pdl.isValid = false → generateSignal pdl.toSMA = none) := by
  have hv : pdl.isValid = true ↔ 55 ≤ pdl.length := by
    simp [PriceDataList.isValid, MinPriceDataLength]
  have hs : ∀ n offset : Int, (∃ v, pdl.sma n offset = some v) ↔
      (0 ≤ (pdl.length : Int) - n - offset ∧
        (pdl.length : Int) - n - offset ≤ (pdl.length : Int) - offset ∧
        (pdl.length : Int) - offset ≤ (pdl.length : Int)) := by
    intro n offset
    rw [← Option.isSome_iff_exists, sma_isSome_iff]
  refine ⟨?_, ?_, ?_, ?_⟩
  · rw [hv]
    simp only [sampledWindows, windowInside, List.mem_cons, List.mem_singleton,
      List.mem_nil_iff, or_false, forall_eq_or_imp, forall_eq]
    omega
  · rw [hv]
    simp only [sampledWindows, List.mem_cons, List.mem_singleton,
      List.mem_nil_iff, or_false, forall_eq_or_imp, forall_eq, hs]
    omega
  · intro h
    have h55 := hv.mp h
    obtain ⟨a, ha⟩ := (hs 8 0).mpr (by omega)
    obtain ⟨b, hb⟩ := (hs 8 1).mpr (by omega)
    obtain ⟨c, hc⟩ := (hs 55 0).mpr (by omega)
    obtain ⟨r, hr, -⟩ := generateSignal_some_of_samples pdl.toSMA a b c ha hb hc
    exact ⟨r, hr⟩
  · intro h
    have h55 : ¬ 55 ≤ pdl.length := by
      intro hc
      rw [hv.mpr hc] at h
      exact Bool.noConfusion h
    have hnone : pdl.sma 55 0 = none := by
      cases hc : pdl.sma 55 0 with
      | none => rfl
      | some v =>
        have := (hs 55 0).mp ⟨v, hc⟩
        omega
    simp only [generateSignal, PriceDataList.toSMA, hnone]
    cases pdl.sma 8 0 <;> cases pdl.sma 8 1 <;> rfl

/-- C9 fails as stated: on the one-element list `[1]` the call `sma(0, 0)`
satisfies `len - n - offset >= 0`, yet the divisor is zero; the empty slice
sums to `0` and `0 / 0` is not-a-number. -/
theorem sma_precondition_not_sufficient :
    0 ≤ ((ofCloses [1]).length : Int) - 0 - 0 ∧
    ¬ smaWellDefined (ofCloses [1]) 0 0 ∧
    (ofCloses [1]).sma 0 0 = some F64.nan := by
  refine ⟨by decide, fun h => h.2.2.2 rfl, by decide!⟩

/-- C9 (amended): for integers `n`, `offset` with `len(pdl) - n - offset >= 0`,
the call `pdl.sma(n, offset)` is well defined (slice bounds in range,
`0 <= start <= end <= len`, and divisor `n` non-zero) if and only if moreover
`n >= 1` and `offset >= 0`; the call then does not panic and returns the
`float64` quotient of the sum of its window by `float64(n)`. -/
theorem smaWellDefined_iff (pdl : PriceDataList) (n offset : Int)
    (hpre : 0 ≤ (pdl.length : Int) - n - offset) :
    (smaWellDefined pdl n offset ↔ (1 ≤ n ∧ 0 ≤ offset)) ∧
    (smaWellDefined pdl n offset → ∃ v, pdl.sma n offset = some v) ∧
    ((1 ≤ n ∧ 0 ≤ offset) →
      pdl.sma n offset = some (F64.div
        ((windowCloses pdl n offset).foldl F64.add (F64.fin 0)) (F64.ofInt n))) := by
  refine ⟨?_, fun h => ?_, fun h => ?_⟩
  · simp only [smaWellDefined]
    omega
  · exact Option.isSome_iff_exists.mp
      ((sma_isSome_iff pdl n offset).mpr ⟨h.1, h.2.1, h.2.2.1⟩)
  · exact sma_eq_of_window pdl n offset (by omega) h.2 (by omega)

theorem smaWellDefined_iff_witness :
    (smaWellDefined (ofCloses [7, 3, 5, 1, 9, 3, 4, 5]) 8 0 ↔ ((1 : Int) ≤ 8 ∧ (0 : Int) ≤ 0)) ∧
    (smaWellDefined (ofCloses [7, 3, 5, 1, 9, 3, 4, 5]) 8 0 →
      ∃ v, (ofCloses [7, 3, 5, 1, 9, 3, 4, 5]).sma 8 0 = some v) ∧
    (((1 : Int) ≤ 8 ∧ (0 : Int) ≤ 0) →
      (ofCloses [7, 3, 5, 1, 9, 3, 4, 5]).sma 8 0 = some (F64.div
        ((windowCloses (ofCloses [7, 3, 5, 1, 9, 3, 4, 5]) 8 0).foldl F64.add (F64.fin 0))
        (F64.ofInt 8))) :=
  smaWellDefined_iff (ofCloses [7, 3, 5, 1, 9, 3, 4, 5]) 8 0 (by simp [ofCloses])

/-- C10: for a list `xs` with at least `n >= 1` elements and any list `ys` of `k`
trailing elements, `(xs ++ ys).sma(n, k) = xs.sma(n, 0)`, and neither call
panics: the `k` most recent values are ignored. -/
theorem sma_append_offset (xs ys : PriceDataList) (n : Int)
    (hn : 1 ≤ n) (hlen : n ≤ (xs.length : Int)) :
    (xs ++ ys).sma n (ys.length : Int) = xs.sma n 0 ∧
    ∃ v, xs.sma n 0 = some v := by
  rw [sma_eq_of_window (xs ++ ys) n ys.length (by omega) (by omega)
      (by rw [List.length_append]; push_cast; omega),
    sma_eq_of_window xs n 0 (by omega) (by omega) (by omega)]
  refine ⟨?_, _, rfl⟩
  have hk : (((xs ++ ys).length : Int) - n - (ys.length : Int)).toNat
      = ((xs.length : Int) - n - 0).toNat := by
    rw [List.length_append]; push_cast; congr 1; ring
  have hle : ((xs.length : Int) - n - 0).toNat ≤ xs.length := by omega
  have hn2 : n.toNat ≤ (xs.drop ((xs.length : Int) - n - 0).toNat).length := by
    rw [List.length_drop]; omega
  simp only [windowCloses]
  rw [hk, List.drop_append_of_le_length hle, List.take_append_of_le_length hn2]

theorem sma_append_offset_witness :
    (ofCloses [7, 3, 5, 1, 9, 3, 4, 5] ++ ofCloses [8, 9]).sma 8 2
        = (ofCloses [7, 3, 5, 1, 9, 3, 4, 5]).sma 8 0 ∧
    ∃ v, (ofCloses [7, 3, 5, 1, 9, 3, 4, 5]).sma 8 0 = some v :=
  sma_append_offset (ofCloses [7, 3, 5, 1, 9, 3, 4, 5]) (ofCloses [8, 9]) 8 (by decide)
    (by simp [ofCloses])

/-- C11: `parsePeriod` answers 1, 5, 15 and 30 minutes for `"1m"`, `"5m"`,
`"15m"`, `"30m"` and 1, 2, 4 and 24 hours for `"1h"`, `"2h"`, `"4h"`, `"1d"`, each
with a nil error; for every other string `s` it answers the zero duration and
an error whose message is `"Invalid period "` followed by `s`. -/
theorem parsePeriod_table :
    parsePeriod "1m" = (Minute, none) ∧ parsePeriod "5m" = (Minute * 5, none) ∧
    parsePeriod "15m" = (Minute * 15, none) ∧ parsePeriod "30m" = (Minute * 30, none) ∧
    parsePeriod "1h" = (Hour, none) ∧ parsePeriod "2h" = (Hour * 2, none) ∧
    parsePeriod "4h" = (Hour * 4, none) ∧ parsePeriod "1d" = (Hour * 24, none) ∧
    Minute = 60 * 1000000000 ∧ Hour = 60 * (60 * 1000000000) ∧
    ∀ s : String, s ∉ supportedPeriods →
      parsePeriod s = ((0 : Duration), some ("Invalid period " ++ s)) := by
  refine ⟨by decide, by decide, by decide, by decide, by decide, by decide, by decide,
    by decide, rfl, rfl, fun s hs => ?_⟩
  exact parsePeriod_of_unsupported s hs

/-- C12: when the fetch succeeds with a list of fewer than 55 elements, the
handler `signal` answers status 500 with the body `"Insufficient data available
for the requested time range"` and does not call `generateSignal`; when it
succeeds with at least 55 elements, the body of the response is the result of
`generateSignal` on that list. -/
theorem signal_checks_validity (env : Env) (r : Request)
    (hfetch : (fetchPriceData env r.exchange r.pair r.period).err = none) :
    ((fetchPriceData env r.exchange r.pair r.period).pdl.length < 55 →
      (signal env r).response
        = some ⟨500, "Insufficient data available for the requested time range"⟩ ∧
      Call.generateSignal ∉ (signal env r).calls) ∧
    (55 ≤ (fetchPriceData env r.exchange r.pair r.period).pdl.length →
      ∃ sig, generateSignal (fetchPriceData env r.exchange r.pair r.period).pdl.toSMA = some sig ∧
        (signal env r).response = some ⟨200, sig⟩) := by
  constructor
  · intro hlt
    have hv : (fetchPriceData env r.exchange r.pair r.period).pdl.isValid = false := by
      simp [PriceDataList.isValid, MinPriceDataLength, hlt]
    simp [signal, hfetch, hv]
  · intro hge
    have hv : (fetchPriceData env r.exchange r.pair r.period).pdl.isValid = true := by
      simp [PriceDataList.isValid, MinPriceDataLength, hge]
    obtain ⟨sig, hsig⟩ := generateSignal_some_of_valid _ hge
    exact ⟨sig, hsig, by simp [signal, hfetch, hv, hsig]⟩

theorem signal_checks_validity_witness :
    ((fetchPriceData (stubEnv (ofCloses (List.replicate 31 1)))
        "coinbasepro" "BTC-EUR" "30m").pdl.length < 55 →
      (signal (stubEnv (ofCloses (List.replicate 31 1)))
          ⟨"coinbasepro", "BTC-EUR", "30m"⟩).response
        = some ⟨500, "Insufficient data available for the requested time range"⟩ ∧
      Call.generateSignal ∉ (signal (stubEnv (ofCloses (List.replicate 31 1)))
          ⟨"coinbasepro", "BTC-EUR", "30m"⟩).calls) ∧
    (55 ≤ (fetchPriceData (stubEnv (ofCloses (List.replicate 31 1)))
        "coinbasepro" "BTC-EUR" "30m").pdl.length →
      ∃ sig, generateSignal (fetchPriceData (stubEnv (ofCloses (List.replicate 31 1)))
          "coinbasepro" "BTC-EUR" "30m").pdl.toSMA = some sig ∧
        (signal (stubEnv (ofCloses (List.replicate 31 1)))
          ⟨"coinbasepro", "BTC-EUR", "30m"⟩).response = some ⟨200, sig⟩) :=
  signal_checks_validity (stubEnv (ofCloses (List.replicate 31 1)))
    ⟨"coinbasepro", "BTC-EUR", "30m"⟩ (by simp [fetchPriceData, parsePeriod, stubEnv])

/-- C19: for a period string outside the eight supported ones,
`fetchPriceData` returns the empty list together with the error of
`parsePeriod` and requests no URL, and the handler `signal` answers status 400
with the body `"Error: Invalid period "` followed by the period string, calling
neither `isValid` nor `generateSignal`. -/
theorem signal_invalid_period (env : Env) (exchange pair period : String)
    (hp : period ∉ supportedPeriods) :
    (fetchPriceData env exchange pair period).pdl = [] ∧
    (fetchPriceData env exchange pair period).err = (parsePeriod period).2 ∧
    (parsePeriod period).2 = some ("Invalid period " ++ period) ∧
    (fetchPriceData env exchange pair period).requests = [] ∧
    (signal env ⟨exchange, pair, period⟩).response
      = some ⟨400, "Error: Invalid period " ++ period⟩ ∧
    (signal env ⟨exchange, pair, period⟩).requests = [] ∧
    (signal env ⟨exchange, pair, period⟩).calls = [] := by
  have hpp := parsePeriod_of_unsupported period hp
  have hf : fetchPriceData env exchange pair period
      = ⟨[], some ("Invalid period " ++ period), []⟩ := by
    simp [fetchPriceData, hpp]
  have happ : "Error: " ++ ("Invalid period " ++ period) = "Error: Invalid period " ++ period := by
    rw [← String.append_assoc]; rfl
  refine ⟨by rw [hf], by rw [hf, hpp], by rw [hpp], by rw [hf], ?_, ?_, ?_⟩ <;>
    simp [signal, hf, happ]

theorem signal_invalid_period_witness :
    (fetchPriceData (stubEnv []) "coinbasepro" "BTC-EUR" "20d").pdl = [] ∧
    (fetchPriceData (stubEnv []) "coinbasepro" "BTC-EUR" "20d").err = (parsePeriod "20d").2 ∧
    (parsePeriod "20d").2 = some ("Invalid period " ++ "20d") ∧
    (fetchPriceData (stubEnv []) "coinbasepro" "BTC-EUR" "20d").requests = [] ∧
    (signal (stubEnv []) ⟨"coinbasepro", "BTC-EUR", "20d"⟩).response
      = some ⟨400, "Error: Invalid period " ++ "20d"⟩ ∧
    (signal (stubEnv []) ⟨"coinbasepro", "BTC-EUR", "20d"⟩).requests = [] ∧
    (signal (stubEnv []) ⟨"coinbasepro", "BTC-EUR", "20d"⟩).calls = [] :=
  signal_invalid_period (stubEnv []) "coinbasepro" "BTC-EUR" "20d" (by decide)

/-- C13: `generateSignal` is deterministic.  On a provider, with whatever
hidden state, that answers the same three samples on each call, two
successive calls of `generateSignal` return the same signal; on a
`PriceDataList` the call returns what the three samples of the list decide and
leaves the list as it was. -/
theorem generateSignal_deterministic {σ : Type} (p : StatefulSMA σ)
    (curr8 prev8 curr55 : F64)
    (hsame : ∀ st, (∃ st1, p.sma st 8 0 = some (curr8, st1)) ∧
      (∃ st1, p.sma st 8 1 = some (prev8, st1)) ∧
      (∃ st1, p.sma st 55 0 = some (curr55, st1)))
    (st : σ) :
    (∃ r st1 st2, generateSignalFrom p st = some (r, st1) ∧
      generateSignalFrom p st1 = some (r, st2)) ∧
    ∀ pdl : PriceDataList,
      generateSignalFrom PriceDataList.stateful pdl
        = (generateSignal pdl.toSMA).map fun r => (r, pdl) := by
  refine ⟨?_, generateSignalFrom_list⟩
  obtain ⟨st1, h1⟩ := generateSignalFrom_fixed p curr8 prev8 curr55 hsame st
  obtain ⟨st2, h2⟩ := generateSignalFrom_fixed p curr8 prev8 curr55 hsame st1
  cases hr : (if (F64.lt curr8 curr55 && F64.ge prev8 curr55) = true then some SignalSell
      else if (F64.gt curr8 curr55 && F64.le prev8 curr55) = true then some SignalBuy
      else some SignalNeutral) with
  | none => split_ifs at hr
  | some r =>
    rw [hr] at h1 h2
    exact ⟨r, st1, st2, h1, h2⟩

theorem generateSignal_deterministic_witness :
    (∃ r st1 st2,
      generateSignalFrom (countingSamples (F64.fin 500) (F64.fin 400) (F64.fin 450)) 0
        = some (r, st1) ∧
      generateSignalFrom (countingSamples (F64.fin 500) (F64.fin 400) (F64.fin 450)) st1
        = some (r, st2)) ∧
    ∀ pdl : PriceDataList,
      generateSignalFrom PriceDataList.stateful pdl
        = (generateSignal pdl.toSMA).map fun r => (r, pdl) :=
  generateSignal_deterministic (countingSamples (F64.fin 500) (F64.fin 400) (F64.fin 450))
    (F64.fin 500) (F64.fin 400) (F64.fin 450)
    (fun st => ⟨⟨st + 1, rfl⟩, ⟨st + 1, rfl⟩, ⟨st + 1, rfl⟩⟩) 0

/-- C14: when the previous and the current short average are strictly on the
same side of the long average (both above, or both below), `generateSignal`
returns `"NEUTRAL"`. -/
theorem generateSignal_neutral_same_side (s : SMA) (curr8 prev8 curr55 : F64)
    (h1 : s.sma 8 0 = some curr8) (h2 : s.sma 8 1 = some prev8)
    (h3 : s.sma 55 0 = some curr55)
    (hside : (F64.gt prev8 curr55 = true ∧ F64.gt curr8 curr55 = true) ∨
      (F64.lt prev8 curr55 = true ∧ F64.lt curr8 curr55 = true)) :
    generateSignal s = some "NEUTRAL" := by
  rw [generateSignal_of_samples s curr8 prev8 curr55 h1 h2 h3]
  rcases hside with ⟨hp, hc⟩ | ⟨hp, hc⟩
  · have ha : F64.lt curr8 curr55 = false := F64.lt_asymm_bool _ _ hc
    have hb : F64.le prev8 curr55 = false := F64.not_le_of_lt _ _ hp
    simp [ha, hb, SignalNeutral]
  · have ha : F64.gt curr8 curr55 = false := F64.lt_asymm_bool _ _ hc
    have hb : F64.ge prev8 curr55 = false := F64.not_le_of_lt _ _ hp
    simp [ha, hb, SignalNeutral]

theorem generateSignal_neutral_same_side_witness :
    generateSignal (mockSamples (F64.fin 500) (F64.fin 480) (F64.fin 450)) = some "NEUTRAL" :=
  generateSignal_neutral_same_side (mockSamples (F64.fin 500) (F64.fin 480) (F64.fin 450))
    (F64.fin 500) (F64.fin 480) (F64.fin 450) rfl rfl rfl (Or.inl ⟨by decide, by decide⟩)

/-- C15: `generateSignal` reads its input through the three samples `sma(8,0)`,
`sma(8,1)`, `sma(55,0)` only.  Two lists of at least 55 elements whose last 55
elements coincide get the same signal, whatever their older elements and
lengths; and any two providers that agree on the three samples get the same
result. -/
theorem generateSignal_reads_three_samples (pdl1 pdl2 : PriceDataList)
    (hlen1 : 55 ≤ pdl1.length) (hlen2 : 55 ≤ pdl2.length)
    (hlast : pdl1.drop (pdl1.length - 55) = pdl2.drop (pdl2.length - 55)) :
    (generateSignal pdl1.toSMA = generateSignal pdl2.toSMA ∧
      ∃ r, generateSignal pdl1.toSMA = some r) ∧
    ∀ s t : SMA, s.sma 8 0 = t.sma 8 0 → s.sma 8 1 = t.sma 8 1 → s.sma 55 0 = t.sma 55 0 →
      generateSignal s = generateSignal t := by
  refine ⟨⟨?_, generateSignal_some_of_valid pdl1 hlen1⟩, fun s t h1 h2 h3 => ?_⟩
  · rw [generateSignal_of_last pdl1 hlen1, generateSignal_of_last pdl2 hlen2, hlast]
  · simp only [generateSignal, h1, h2, h3]

theorem generateSignal_reads_three_samples_witness :
    (generateSignal (ofCloses (List.replicate 55 1)).toSMA
        = generateSignal (ofCloses (7 :: 3 :: List.replicate 55 1)).toSMA ∧
      ∃ r, generateSignal (ofCloses (List.replicate 55 1)).toSMA = some r) ∧
    ∀ s t : SMA, s.sma 8 0 = t.sma 8 0 → s.sma 8 1 = t.sma 8 1 → s.sma 55 0 = t.sma 55 0 →
      generateSignal s = generateSignal t :=
  generateSignal_reads_three_samples (ofCloses (List.replicate 55 1))
    (ofCloses (7 :: 3 :: List.replicate 55 1)) (by simp [ofCloses]) (by simp [ofCloses])
    (by simp [ofCloses])

/-- C16 fails as stated: in `absorbedSeries`, 55 `float64` closes, the latest
close and the close 8 positions earlier are both `1`, yet the signal is
`"SELL"`.  The close `1` at index 46 is added before `2^53` and kept
(`sma(8,1) = 2^50 + 1/4`), the close `1` at index 54 is added after it and lost
to rounding (`sma(8,0) = 2^50`), and `sma(55,0) = 2^50 + 1/4`. -/
theorem generateSignal_absorbedSeries :
    (∀ pd ∈ absorbedSeries, F64.isFloat64 pd.Close = true) ∧
    55 ≤ absorbedSeries.length ∧
    closeAt absorbedSeries (absorbedSeries.length - 1)
      = closeAt absorbedSeries (absorbedSeries.length - 9) ∧
    absorbedSeries.sma 8 0 = some (F64.fin (twoPow 50)) ∧
    absorbedSeries.sma 8 1 = some (F64.fin (twoPow 50 + 1 / 4)) ∧
    absorbedSeries.sma 55 0 = some (F64.fin (twoPow 50 + 1 / 4)) ∧
    generateSignal absorbedSeries.toSMA = some "SELL" ∧
    generateSignal absorbedSeries.toSMA ≠ some "NEUTRAL" := by
  decide!

/-- C16 (amended): on a list of at least 55 elements whose two short samples
`sma(8,0)` and `sma(8,1)` are computed without rounding error (they are the
exact means of their windows), a `"BUY"` needs the latest closing price
strictly above the one 8 positions earlier (`pdl[len-1].Close >
pdl[len-9].Close`), a `"SELL"` needs it strictly below, and when the two are
equal the signal is `"NEUTRAL"`. -/
theorem generateSignal_latest_close (pdl : PriceDataList) (hlen : 55 ≤ pdl.length)
    (h80 : pdl.sma 8 0 = some (F64.fin (specMean pdl 8 0)))
    (h81 : pdl.sma 8 1 = some (F64.fin (specMean pdl 8 1))) :
    (generateSignal pdl.toSMA = some "BUY" →
      closeAt pdl (pdl.length - 9) < closeAt pdl (pdl.length - 1)) ∧
    (generateSignal pdl.toSMA = some "SELL" →
      closeAt pdl (pdl.length - 1) < closeAt pdl (pdl.length - 9)) ∧
    (closeAt pdl (pdl.length - 1) = closeAt pdl (pdl.length - 9) →
      generateSignal pdl.toSMA = some "NEUTRAL") := by
  have hd := specMean_diff pdl (by omega)
  obtain ⟨c, hc⟩ := Option.isSome_iff_exists.mp ((sma_isSome_iff pdl 55 0).mpr (by omega))
  rw [generateSignal_of_samples pdl.toSMA _ _ c h80 h81 hc]
  refine ⟨fun h => ?_, fun h => ?_, fun h => ?_⟩
  · split_ifs at h with hs hb
    · exact absurd h (by decide)
    · simp only [Bool.and_eq_true, F64.gt] at hb
      have := F64.le_lt_fin _ _ c hb.2 hb.1
      linarith
    · exact absurd h (by decide)
  · split_ifs at h with hs hb
    · simp only [Bool.and_eq_true, F64.ge] at hs
      have := F64.lt_le_fin _ _ c hs.1 hs.2
      linarith
    · exact absurd h (by decide)
    · exact absurd h (by decide)
  · have he : specMean pdl 8 0 = specMean pdl 8 1 := by linarith
    split_ifs with hs hb
    · simp only [Bool.and_eq_true, F64.ge] at hs
      exact absurd (F64.lt_le_fin _ _ c hs.1 hs.2) (by rw [he]; exact lt_irrefl _)
    · simp only [Bool.and_eq_true, F64.gt] at hb
      exact absurd (F64.le_lt_fin _ _ c hb.2 hb.1) (by rw [he]; exact lt_irrefl _)
    · rfl

theorem generateSignal_latest_close_witness :
    generateSignal jumpSeries.toSMA = some "BUY" ∧
    closeAt jumpSeries (jumpSeries.length - 9) < closeAt jumpSeries (jumpSeries.length - 1) :=
  ⟨generateSignal_jumpSeries,
    (generateSignal_latest_close jumpSeries jumpSeries_length (by decide!) (by decide!)).1
      generateSignal_jumpSeries⟩

/-- C17: BUY and SELL are mirror images.  On a list of at least 55 elements,
negating every closing price turns a `"BUY"` into a `"SELL"`, a `"SELL"` into a
`"BUY"`, and leaves a `"NEUTRAL"`. -/
theorem generateSignal_negCloses (pdl : PriceDataList) (hlen : 55 ≤ pdl.length) :
    (generateSignal pdl.toSMA = some "BUY" →
      generateSignal (negCloses pdl).toSMA = some "SELL") ∧
    (generateSignal pdl.toSMA = some "SELL" →
      generateSignal (negCloses pdl).toSMA = some "BUY") ∧
    (generateSignal pdl.toSMA = some "NEUTRAL" →
      generateSignal (negCloses pdl).toSMA = some "NEUTRAL") := by
  obtain ⟨a, ha⟩ := Option.isSome_iff_exists.mp ((sma_isSome_iff pdl 8 0).mpr (by omega))
  obtain ⟨b, hb⟩ := Option.isSome_iff_exists.mp ((sma_isSome_iff pdl 8 1).mpr (by omega))
  obtain ⟨c, hc⟩ := Option.isSome_iff_exists.mp ((sma_isSome_iff pdl 55 0).mpr (by omega))
  have ha2 : (negCloses pdl).toSMA.sma 8 0 = some (F64.neg a) := by
    simp only [PriceDataList.toSMA, sma_negCloses, ha, Option.map_some']
  have hb2 : (negCloses pdl).toSMA.sma 8 1 = some (F64.neg b) := by
    simp only [PriceDataList.toSMA, sma_negCloses, hb, Option.map_some']
  have hc2 : (negCloses pdl).toSMA.sma 55 0 = some (F64.neg c) := by
    simp only [PriceDataList.toSMA, sma_negCloses, hc, Option.map_some']
  rw [generateSignal_of_samples pdl.toSMA a b c ha hb hc,
    generateSignal_of_samples (negCloses pdl).toSMA _ _ _ ha2 hb2 hc2]
  simp only [F64.gt, F64.ge, F64.lt_neg, F64.le_neg]
  by_cases hs : (F64.lt a c && F64.le c b) = true
  · have hn : ¬ ((F64.lt c a && F64.le b c) = true) := by
      intro hx
      simp only [Bool.and_eq_true] at hs hx
      have := F64.lt_asymm_bool a c hs.1
      rw [hx.1] at this
      exact Bool.noConfusion this
    simp only [if_pos hs, if_neg hn]
    exact ⟨fun h => absurd h (by decide), fun _ => rfl, fun h => absurd h (by decide)⟩
  · by_cases hb : (F64.lt c a && F64.le b c) = true
    · simp only [if_neg hs, if_pos hb]
      exact ⟨fun _ => rfl, fun h => absurd h (by decide), fun h => absurd h (by decide)⟩
    · simp only [if_neg hs, if_neg hb]
      exact ⟨fun h => absurd h (by decide), fun h => absurd h (by decide), fun _ => rfl⟩

theorem generateSignal_negCloses_witness :
    generateSignal risingSeries.toSMA = some "BUY" ∧
    generateSignal (negCloses risingSeries).toSMA = some "SELL" :=
  ⟨generateSignal_risingSeries,
    (generateSignal_negCloses risingSeries risingSeries_length).1
      generateSignal_risingSeries⟩

/-- C18 fails as stated: `hugeSeries` holds 55 `float64` closes and gives
`"NEUTRAL"`; with every close multiplied by `2`, again `float64` values, the
sums of `sma(8,1)` and `sma(55,0)` overflow to `+Inf` while `sma(8,0)` stays
finite, and the signal is `"SELL"`. -/
theorem generateSignal_scale_overflows :
    (0 : ℚ) < 2 ∧ 55 ≤ hugeSeries.length ∧
    (∀ pd ∈ hugeSeries, F64.isFloat64 pd.Close = true) ∧
    (∀ pd ∈ scaleCloses 2 hugeSeries, F64.isFloat64 pd.Close = true) ∧
    generateSignal hugeSeries.toSMA = some "NEUTRAL" ∧
    (scaleCloses 2 hugeSeries).sma 8 0 = some (F64.fin (twoPow 1020)) ∧
    (scaleCloses 2 hugeSeries).sma 8 1 = some F64.posInf ∧
    (scaleCloses 2 hugeSeries).sma 55 0 = some F64.posInf ∧
    generateSignal (scaleCloses 2 hugeSeries).toSMA = some "SELL" ∧
    generateSignal (scaleCloses 2 hugeSeries).toSMA ≠ generateSignal hugeSeries.toSMA := by
  decide!

/-- C18 (amended): the signal does not depend on the price unit as long as
nothing is rounded.  On a list of at least 55 elements and for a constant
`c > 0` such that every product `c * Close` is exact and the three samples of
the list and of the scaled list are computed without rounding error or
overflow (they are the exact means of their windows), multiplying every
closing price by `c` leaves the result of `generateSignal` unchanged. -/
theorem generateSignal_scaleCloses (pdl : PriceDataList) (c : ℚ)
    (hlen : 55 ≤ pdl.length) (hc : 0 < c)
    (hmul : ∀ pd ∈ pdl, F64.mul (F64.fin c) pd.Close = F64.fin (c * pd.Close.toRat))
    (hex : ∀ w ∈ sampledWindows,
      pdl.sma w.1 w.2 = some (F64.fin (specMean pdl w.1 w.2)) ∧
      (scaleCloses c pdl).sma w.1 w.2
        = some (F64.fin (specMean (scaleCloses c pdl) w.1 w.2))) :
    generateSignal (scaleCloses c pdl).toSMA = generateSignal pdl.toSMA ∧
    ∃ r, generateSignal pdl.toSMA = some r := by
  refine ⟨?_, generateSignal_some_of_valid pdl hlen⟩
  have h1 := hex (8, 0) (by simp [sampledWindows])
  have h2 := hex (8, 1) (by simp [sampledWindows])
  have h3 := hex (55, 0) (by simp [sampledWindows])
  rw [generateSignal_of_fin pdl.toSMA _ _ _ h1.1 h2.1 h3.1,
    generateSignal_of_fin (scaleCloses c pdl).toSMA _ _ _ h1.2 h2.2 h3.2,
    specMean_scaleCloses c pdl hmul, specMean_scaleCloses c pdl hmul,
    specMean_scaleCloses c pdl hmul]
  simp only [mul_lt_mul_left hc, mul_le_mul_left hc]

theorem generateSignal_scaleCloses_witness :
    generateSignal (scaleCloses 2 jumpSeries).toSMA = generateSignal jumpSeries.toSMA ∧
    generateSignal (scaleCloses 2 jumpSeries).toSMA = some "BUY" :=
  ⟨(generateSignal_scaleCloses jumpSeries 2 jumpSeries_length (by decide!) (by decide!)
      (by decide!)).1,
    (generateSignal_scaleCloses jumpSeries 2 jumpSeries_length (by decide!) (by decide!)
      (by decide!)).1.trans generateSignal_jumpSeries⟩

end Cryptohopper
